import Mathlib

/-!
Shallow embedding of the configuration-resolution and byte-budget core of the
bincode2 crate (src/config.rs, src/error.rs, src/internal.rs), with proofs of
the specification's claims about it.

Machine integers (u64, usize) are modelled as Nat: the single subtraction in
the source (Bounded::add) is guarded by a comparison, so it never underflows,
and the additions are byte counts that stay far below 2^64 in any execution
the crate supports, so no modular reduction is observable.

The encode/decode traversal collaborators (ser.rs, de/mod.rs) are not part of
the sources here: where a claim depends on them they are modelled from the
spec, with a value abstracted as the list of primitive byte chunks the
traversal emits (for encoding) or demands (for decoding).  Every such
definition carries a doc comment starting with the words "Modelled from the
spec".  Everything else is translated directly from the Rust sources.
-/

set_option autoImplicit false

namespace Bincode2

/-- The closed error taxonomy of src/error.rs (enum ErrorKind).  The payloads
of Io and InvalidUtf8Encoding wrap external cause values and are modelled as
payload-free tags; the other payloads are kept. -/
inductive ErrorKind where
  | Io
  | InvalidUtf8Encoding
  | InvalidBoolEncoding (b : Nat)
  | InvalidCharEncoding
  | InvalidTagEncoding (tag : Nat)
  | DeserializeAnyNotSupported
  | SizeLimit
  | SizeTypeLimit
  | SequenceMustHaveLength
  | Custom (msg : String)
deriving DecidableEq, Repr

/-- Decidable equality of Except results, used to state and evaluate the
claims' propositions on concrete inputs. -/
instance {ε α : Type} [DecidableEq ε] [DecidableEq α] : DecidableEq (Except ε α) := fun x y =>
  match x, y with
  | .ok a, .ok b =>
    if h : a = b then .isTrue (by rw [h])
    else .isFalse (by intro hc; injection hc; contradiction)
  | .ok _, .error _ => .isFalse (by intro hc; injection hc)
  | .error _, .ok _ => .isFalse (by intro hc; injection hc)
  | .error e, .error f =>
    if h : e = f then .isTrue (by rw [h])
    else .isFalse (by intro hc; injection hc; contradiction)

/-- The Bounded size limit of src/internal.rs (struct Bounded(pub u64)):
a remaining byte budget. -/
structure Bounded where
  remaining : Nat
deriving DecidableEq, Repr

/-- Bounded::add (src/internal.rs:171-178): if the remaining budget covers the
chunk, decrement it and succeed; otherwise fail with SizeLimit.  The mutable
receiver is translated by returning the post-call state; note that the failure
branch returns the receiver unchanged. -/
def Bounded.add (self : Bounded) (n : Nat) : Except ErrorKind Unit × Bounded :=
  if self.remaining ≥ n then (.ok (), ⟨self.remaining - n⟩)
  else (.error .SizeLimit, self)

/-- Bounded::limit (src/internal.rs:181-183). -/
def Bounded.limit (self : Bounded) : Option Nat :=
  some self.remaining

/-- The limit axis of a resolved specialization: either the stateless Infinite
limiter or a Bounded one (the two SizeLimit impls of src/internal.rs, as
selected by LimitOption resolution in src/config.rs). -/
inductive Limit where
  | infinite
  | bounded (b : Bounded)
deriving DecidableEq, Repr

/-- SizeLimit::add dispatched over the two impls: Infinite::add
(src/internal.rs:188-190) always succeeds and keeps no state; Bounded::add is
Bounded.add above. -/
def Limit.add : Limit → Nat → Except ErrorKind Unit × Limit
  | .infinite, _n => (.ok (), .infinite)
  | .bounded b, n =>
    match Bounded.add b n with
    | (r, b') => (r, .bounded b')

/-- SizeLimit::limit dispatched over the two impls: Infinite::limit
(src/internal.rs:193-195) reports none; Bounded::limit reports the remaining
budget. -/
def Limit.limit : Limit → Option Nat
  | .infinite => none
  | .bounded b => Bounded.limit b

/-- WithOtherLimit::new (src/config.rs:168-176) restricted to the limit axis:
the new limit shadows whatever limit the inner options carried. -/
def with_other_limit (_options : Limit) (new_limit : Limit) : Limit :=
  new_limit

/-- OptionsExt::with_no_limit (src/config.rs:26-28) restricted to the limit
axis. -/
def Limit.with_no_limit (self : Limit) : Limit :=
  with_other_limit self .infinite

/-- OptionsExt::with_limit (src/config.rs:30-32) restricted to the limit
axis. -/
def Limit.with_limit (self : Limit) (limit : Nat) : Limit :=
  with_other_limit self (.bounded ⟨limit⟩)

/-- The counting limiter of src/internal.rs:14-18 (struct CountSize): a running
total wrapped around the real limiter it forwards to.  The generic parameter L
is instantiated at the resolved limit axis. -/
structure CountSize where
  total : Nat
  other_limit : Limit
deriving DecidableEq, Repr

/-- CountSize::add (src/internal.rs:51-55): forward the chunk to the wrapped
limiter first; only on success accumulate it into the running total. -/
def CountSize.add (self : CountSize) (c : Nat) : Except ErrorKind Unit × CountSize :=
  match Limit.add self.other_limit c with
  | (.ok _, l) => (.ok (), { total := self.total + c, other_limit := l })
  | (.error e, l) => (.error e, { self with other_limit := l })

/-- Total number of bytes the encode traversal emits for a value: the sum of
its primitive chunk lengths. -/
def total_bytes (value : List (List Nat)) : Nat :=
  (value.map List.length).sum

/-- Modelled from the spec: the SizeChecker of ser.rs (not under src/) runs the
real encode traversal in counting mode (spec section 4.5): for each primitive
chunk it calls add on the counting limiter with the chunk length and writes
nothing, stopping at the first failure. -/
def size_checker_run : List (List Nat) → CountSize → Except ErrorKind Unit × CountSize
  | [], counter => (.ok (), counter)
  | chunk :: rest, counter =>
    match CountSize.add counter chunk.length with
    | (.ok _, counter') => size_checker_run rest counter'
    | (.error e, counter') => (.error e, counter')

/-- Modelled from the spec: the Serializer of ser.rs (not under src/) runs the
encode traversal for real (spec sections 2 and 6): for each primitive chunk it
meters the chunk length against the limit axis and then pushes the chunk's
bytes to the writer, stopping at the first failure. -/
def serializer_run : List (List Nat) → Limit → List Nat →
    Except ErrorKind Unit × Limit × List Nat
  | [], l, writer => (.ok (), l, writer)
  | chunk :: rest, l, writer =>
    match Limit.add l chunk.length with
    | (.ok _, l') => serializer_run rest l' (writer ++ chunk)
    | (.error e, l') => (.error e, l', writer)

/-- serialized_size (src/internal.rs:62-79): clone the configured limiter, wrap
the clone in a CountSize starting at total 0, run the encode traversal in
counting mode against it, and on success report the accumulated total.  The
caller's options are wrapped by a WithOtherLimit whose new limit shadows the
original one, so they come back with their own limit state untouched; the
translation returns them as the second component. -/
def serialized_size (value : List (List Nat)) (options : Limit) :
    Except ErrorKind Nat × Limit :=
  let old_limiter := options
  match size_checker_run value { total := 0, other_limit := old_limiter } with
  | (.ok _, size_counter) => (.ok size_counter.total, options)
  | (.error e, _) => (.error e, options)

/-- serialize_into (src/internal.rs:20-34): when the configured limiter reports
a bound, first run serialized_size purely for its error side effect; only if
that succeeds construct the serializer over the writer and run the real pass.
The translation returns the final limit state and writer contents alongside
the result. -/
def serialize_into (writer : List Nat) (value : List (List Nat)) (options : Limit) :
    Except ErrorKind Unit × Limit × List Nat :=
  if (Limit.limit options).isSome then
    match serialized_size value options with
    | (.error e, options') => (.error e, options', writer)
    | (.ok _, options') => serializer_run value options' writer
  else
    serializer_run value options writer

/-- serialize (src/internal.rs:36-48): compute the exact size (failing early if
over budget), allocate the buffer, then run serialize_into on the buffer with
the limit removed by with_no_limit. -/
def serialize (value : List (List Nat)) (options : Limit) : Except ErrorKind (List Nat) :=
  match serialized_size value options with
  | (.error e, _) => .error e
  | (.ok _actual_size, options') =>
    let writer : List Nat := []
    match serialize_into writer value (Limit.with_no_limit options') with
    | (.ok _, _, w) => .ok w
    | (.error e, _, _) => .error e

/-- Modelled from the spec: the Deserializer of de/mod.rs (not under src/) runs
the decode traversal (spec sections 2 and 6): for each chunk of n bytes the
value's shape demands, it first meters n against the limit axis and then pulls
n bytes from the reader, failing with Io when the source is exhausted.  The
value's shape is abstracted as the list of chunk sizes demanded. -/
def deserializer_run : List Nat → Limit → List Nat →
    Except ErrorKind Unit × Limit × List Nat
  | [], l, input => (.ok (), l, input)
  | n :: rest, l, input =>
    match Limit.add l n with
    | (.error e, l') => (.error e, l', input)
    | (.ok _, l') =>
      if n ≤ input.length then deserializer_run rest l' (input.drop n)
      else (.error .Io, l', input)

/-- deserialize_from_custom_seed (src/internal.rs:109-121): build a
Deserializer over the given reader and options and run the decode traversal. -/
def deserialize_from_custom_seed (demands : List Nat) (input : List Nat) (options : Limit) :
    Except ErrorKind Unit × Limit × List Nat :=
  deserializer_run demands options input

/-- deserialize_from_seed (src/internal.rs:90-98): wrap the reader in an
IoReader (transparent at this level) and delegate, keeping the configured
options. -/
def deserialize_from_seed (demands : List Nat) (input : List Nat) (options : Limit) :
    Except ErrorKind Unit × Limit × List Nat :=
  deserialize_from_custom_seed demands input options

/-- deserialize_from (src/internal.rs:81-88): the seedless wrapper. -/
def deserialize_from (demands : List Nat) (input : List Nat) (options : Limit) :
    Except ErrorKind Unit × Limit × List Nat :=
  deserialize_from_seed demands input options

/-- deserialize_seed (src/internal.rs:141-149): build a SliceReader over the
bytes and replace the configured limit with Infinite via WithOtherLimit before
delegating. -/
def deserialize_seed (demands : List Nat) (bytes : List Nat) (options : Limit) :
    Except ErrorKind Unit × Limit × List Nat :=
  let options' := with_other_limit options .infinite
  deserialize_from_custom_seed demands bytes options'

/-- deserialize (src/internal.rs:133-139): the seedless slice wrapper. -/
def deserialize (demands : List Nat) (bytes : List Nat) (options : Limit) :
    Except ErrorKind Unit × Limit × List Nat :=
  deserialize_seed demands bytes options

/-- The four fixed-width length encodings of src/internal.rs:221-275 (structs
U8, U16, U32, U64 implementing SizeType). -/
inductive SizeType where
  | U8
  | U16
  | U32
  | U64
deriving DecidableEq, Repr

/-- Bit width of each SizeType primitive. -/
def SizeType.bits : SizeType → Nat
  | .U8 => 8
  | .U16 => 16
  | .U32 => 32
  | .U64 => 64

/-- SizeType::write (src/internal.rs:206-213): convert the usize length to the
chosen Primitive with try_into, mapping a conversion failure to SizeTypeLimit;
the successful primitive is then handed to write_to, whose wire layout is an
external collaborator.  A Nat fits the Primitive exactly when it is below
2 to the width. -/
def SizeType.write (w : SizeType) (value : Nat) : Except ErrorKind Nat :=
  if value < 2 ^ w.bits then .ok value else .error .SizeTypeLimit

/-- SizeType::read (src/internal.rs:201-204): pull one Primitive from the
reader closure and widen it losslessly to u64 with Into. -/
def SizeType.read (_w : SizeType) (reader : Except ErrorKind Nat) : Except ErrorKind Nat :=
  match reader with
  | .ok result => .ok result
  | .error e => .error e

/-- LimitOption (src/config.rs:93-97). -/
inductive LimitOption where
  | Unlimited
  | Limited (l : Nat)
deriving DecidableEq, Repr

/-- EndianOption (src/config.rs:99-104). -/
inductive EndianOption where
  | Big
  | Little
  | Native
deriving DecidableEq, Repr

/-- LengthOption (src/config.rs:107-117). -/
inductive LengthOption where
  | U64
  | U32
  | U16
  | U8
deriving DecidableEq, Repr

/-- Config (src/config.rs:140-146): the runtime-mutable settings holder. -/
structure Config where
  limit : LimitOption
  endian : EndianOption
  string_size : LengthOption
  array_size : LengthOption
deriving DecidableEq, Repr

/-- Config::new (src/config.rs:346-353). -/
def Config.new : Config :=
  { limit := .Unlimited, endian := .Little, string_size := .U64, array_size := .U64 }

/-- The three byteorder types the endian axis resolves to
(src/config.rs:34-44); NativeEndian is a platform alias kept as its own
resolved choice. -/
inductive Endian where
  | LittleEndian
  | BigEndian
  | NativeEndian
deriving DecidableEq, Repr

/-- A resolved Options specialization, collapsed to its four axes.  In the
source this is a nest of WithOther* wrapper types each owning one associated
type of the Options trait (src/config.rs:16-23, 208-251); the record holds the
final choice each axis resolves to, the limit being the one mutable axis. -/
structure Options where
  limit : Limit
  endian : Endian
  string_size : SizeType
  array_size : SizeType
deriving DecidableEq, Repr

/-- DefaultOptions (src/config.rs:14, 75-91): Infinite limit, LittleEndian,
U64 string lengths, U64 array lengths. -/
def DefaultOptions.new : Options :=
  { limit := .infinite
    endian := .LittleEndian
    string_size := .U64
    array_size := .U64 }

/-- OptionsExt::with_no_limit on the full specialization: override only the
limit axis with Infinite (src/config.rs:26-28 with the WithOtherLimit Options
impl at 220-229). -/
def Options.with_no_limit (self : Options) : Options :=
  { self with limit := .infinite }

/-- OptionsExt::with_limit: override only the limit axis with Bounded
(src/config.rs:30-32). -/
def Options.with_limit (self : Options) (limit : Nat) : Options :=
  { self with limit := .bounded ⟨limit⟩ }

/-- OptionsExt::with_little_endian (src/config.rs:34-36 with the
WithOtherEndian Options impl at 208-218). -/
def Options.with_little_endian (self : Options) : Options :=
  { self with endian := .LittleEndian }

/-- OptionsExt::with_big_endian (src/config.rs:38-40). -/
def Options.with_big_endian (self : Options) : Options :=
  { self with endian := .BigEndian }

/-- OptionsExt::with_native_endian (src/config.rs:42-44). -/
def Options.with_native_endian (self : Options) : Options :=
  { self with endian := .NativeEndian }

/-- OptionsExt::with_string_size (src/config.rs:46-51 with the
WithOtherStringLength Options impl at 231-240). -/
def Options.with_string_size (self : Options) (s : SizeType) : Options :=
  { self with string_size := s }

/-- OptionsExt::with_array_size (src/config.rs:53-58 with the
WithOtherArrayLength Options impl at 242-251). -/
def Options.with_array_size (self : Options) (s : SizeType) : Options :=
  { self with array_size := s }

/-- config_map_array_length (src/config.rs:310-331): dispatch the array length
axis and invoke the continuation. -/
def config_map_array_length {α : Type} (self : Config) (opts : Options)
    (call : Options → α) : α :=
  match self.array_size with
  | .U64 => call (opts.with_array_size .U64)
  | .U32 => call (opts.with_array_size .U32)
  | .U16 => call (opts.with_array_size .U16)
  | .U8 => call (opts.with_array_size .U8)

/-- config_map_string_length (src/config.rs:287-308): dispatch the string
length axis, then the array length axis. -/
def config_map_string_length {α : Type} (self : Config) (opts : Options)
    (call : Options → α) : α :=
  match self.string_size with
  | .U64 => config_map_array_length self (opts.with_string_size .U64) call
  | .U32 => config_map_array_length self (opts.with_string_size .U32) call
  | .U16 => config_map_array_length self (opts.with_string_size .U16) call
  | .U8 => config_map_array_length self (opts.with_string_size .U8) call

/-- config_map_endian (src/config.rs:268-285): dispatch the endian axis, then
the string length axis. -/
def config_map_endian {α : Type} (self : Config) (opts : Options)
    (call : Options → α) : α :=
  match self.endian with
  | .Little => config_map_string_length self opts.with_little_endian call
  | .Big => config_map_string_length self opts.with_big_endian call
  | .Native => config_map_string_length self opts.with_native_endian call

/-- config_map_limit (src/config.rs:253-266): dispatch the limit axis, then
the endian axis. -/
def config_map_limit {α : Type} (self : Config) (opts : Options)
    (call : Options → α) : α :=
  match self.limit with
  | .Unlimited => config_map_endian self opts.with_no_limit call
  | .Limited l => config_map_endian self (opts.with_limit l) call

/-- config_map (src/config.rs:333-341): start from DefaultOptions and expand
the four Configuration fields in the fixed order limit, endian, string length,
array length, handing the result to the continuation. -/
def config_map {α : Type} (self : Config) (call : Options → α) : α :=
  config_map_limit self DefaultOptions.new call

/-- Follows the spec's words (section 4.4): the fully resolved limit choice. -/
def resolve_limit : LimitOption → Limit
  | .Unlimited => .infinite
  | .Limited l => .bounded ⟨l⟩

/-- Follows the spec's words (section 4.4): the fully resolved endian choice. -/
def resolve_endian : EndianOption → Endian
  | .Little => .LittleEndian
  | .Big => .BigEndian
  | .Native => .NativeEndian

/-- Follows the spec's words (section 4.4): the fully resolved length-width
choice. -/
def resolve_length : LengthOption → SizeType
  | .U64 => .U64
  | .U32 => .U32
  | .U16 => .U16
  | .U8 => .U8

/-- Follows the spec's words (section 4.4): the one concrete specialization a
Configuration deterministically resolves to. -/
def resolve (c : Config) : Options :=
  { limit := resolve_limit c.limit
    endian := resolve_endian c.endian
    string_size := resolve_length c.string_size
    array_size := resolve_length c.array_size }

/-- Follows the spec's words (claim C4): a serialize-to-bytes whose real pass
is metered by the same budget the counting pass enforced, instead of having
the limit removed. -/
def serialize_spec_metered (value : List (List Nat)) (options : Limit) :
    Except ErrorKind (List Nat) :=
  match serialized_size value options with
  | (.error e, _) => .error e
  | (.ok _actual_size, options') =>
    let writer : List Nat := []
    match serialize_into writer value options' with
    | (.ok _, _, w) => .ok w
    | (.error e, _, _) => .error e

/-- A sequence of Bounded::add calls, stopping at the first failure.  This is
the call harness the spec's sequence properties quantify over; each step is
the source's Bounded.add. -/
def Bounded.add_all (self : Bounded) : List Nat → Except ErrorKind Unit × Bounded
  | [] => (.ok (), self)
  | n :: rest =>
    match Bounded.add self n with
    | (.ok _, b') => Bounded.add_all b' rest
    | (.error e, b') => (.error e, b')

theorem Bounded_add_of_le {b : Bounded} {n : Nat} (h : n ≤ b.remaining) :
    Bounded.add b n = (.ok (), ⟨b.remaining - n⟩) := by
  simp [Bounded.add, h]

theorem Bounded_add_of_gt {b : Bounded} {n : Nat} (h : b.remaining < n) :
    Bounded.add b n = (.error .SizeLimit, b) := by
  have h' : ¬ n ≤ b.remaining := by omega
  simp [Bounded.add, h']

theorem size_checker_run_infinite (value : List (List Nat)) (t : Nat) :
    size_checker_run value ⟨t, .infinite⟩ =
      (.ok (), ⟨t + total_bytes value, .infinite⟩) := by
  induction value generalizing t with
  | nil => simp [size_checker_run, total_bytes]
  | cons chunk rest ih =>
    simp only [size_checker_run, CountSize.add, Limit.add]
    rw [ih (t + chunk.length)]
    have : t + chunk.length + total_bytes rest = t + total_bytes (chunk :: rest) := by
      simp [total_bytes]; omega
    rw [this]

theorem total_bytes_cons (chunk : List Nat) (rest : List (List Nat)) :
    total_bytes (chunk :: rest) = chunk.length + total_bytes rest := by
  simp [total_bytes]

theorem size_checker_run_bounded_ok (value : List (List Nat)) (t k : Nat)
    (h : total_bytes value ≤ k) :
    size_checker_run value ⟨t, .bounded ⟨k⟩⟩ =
      (.ok (), ⟨t + total_bytes value, .bounded ⟨k - total_bytes value⟩⟩) := by
  induction value generalizing t k with
  | nil => simp [size_checker_run, total_bytes]
  | cons chunk rest ih =>
    rw [total_bytes_cons] at h
    have hle : chunk.length ≤ k := by omega
    have hadd : CountSize.add ⟨t, .bounded ⟨k⟩⟩ chunk.length =
        (.ok (), ⟨t + chunk.length, .bounded ⟨k - chunk.length⟩⟩) := by
      simp [CountSize.add, Limit.add, Bounded_add_of_le (b := ⟨k⟩) hle]
    have step : size_checker_run (chunk :: rest) ⟨t, .bounded ⟨k⟩⟩ =
        size_checker_run rest ⟨t + chunk.length, .bounded ⟨k - chunk.length⟩⟩ := by
      simp only [size_checker_run, hadd]
    rw [step, ih (t + chunk.length) (k - chunk.length) (by omega)]
    rw [total_bytes_cons]
    have h1 : t + chunk.length + total_bytes rest = t + (chunk.length + total_bytes rest) := by
      omega
    have h2 : k - chunk.length - total_bytes rest = k - (chunk.length + total_bytes rest) := by
      omega
    rw [h1, h2]

theorem size_checker_run_bounded_err (value : List (List Nat)) (t k : Nat)
    (h : k < total_bytes value) :
    ∃ c, size_checker_run value ⟨t, .bounded ⟨k⟩⟩ = (.error .SizeLimit, c) := by
  induction value generalizing t k with
  | nil => simp [total_bytes] at h
  | cons chunk rest ih =>
    rw [total_bytes_cons] at h
    by_cases hn : chunk.length ≤ k
    · have hadd : CountSize.add ⟨t, .bounded ⟨k⟩⟩ chunk.length =
          (.ok (), ⟨t + chunk.length, .bounded ⟨k - chunk.length⟩⟩) := by
        simp [CountSize.add, Limit.add, Bounded_add_of_le (b := ⟨k⟩) hn]
      have step : size_checker_run (chunk :: rest) ⟨t, .bounded ⟨k⟩⟩ =
          size_checker_run rest ⟨t + chunk.length, .bounded ⟨k - chunk.length⟩⟩ := by
        simp only [size_checker_run, hadd]
      rw [step]
      exact ih (t + chunk.length) (k - chunk.length) (by omega)
    · refine ⟨⟨t, .bounded ⟨k⟩⟩, ?_⟩
      have hgt : k < chunk.length := by omega
      have hadd : CountSize.add ⟨t, .bounded ⟨k⟩⟩ chunk.length =
          (.error .SizeLimit, ⟨t, .bounded ⟨k⟩⟩) := by
        simp [CountSize.add, Limit.add, Bounded_add_of_gt (b := ⟨k⟩) hgt]
      simp only [size_checker_run, hadd]

theorem serializer_run_infinite (value : List (List Nat)) (w : List Nat) :
    serializer_run value .infinite w = (.ok (), .infinite, w ++ value.flatten) := by
  induction value generalizing w with
  | nil => simp [serializer_run]
  | cons chunk rest ih =>
    simp only [serializer_run, Limit.add]
    rw [ih (w ++ chunk)]
    simp [List.flatten_cons, List.append_assoc]

theorem serializer_run_bounded_ok (value : List (List Nat)) (k : Nat) (w : List Nat)
    (h : total_bytes value ≤ k) :
    serializer_run value (.bounded ⟨k⟩) w =
      (.ok (), .bounded ⟨k - total_bytes value⟩, w ++ value.flatten) := by
  induction value generalizing k w with
  | nil => simp [serializer_run, total_bytes]
  | cons chunk rest ih =>
    rw [total_bytes_cons] at h
    have hle : chunk.length ≤ k := by omega
    have hadd : Limit.add (.bounded ⟨k⟩) chunk.length =
        (.ok (), .bounded ⟨k - chunk.length⟩) := by
      simp [Limit.add, Bounded_add_of_le (b := ⟨k⟩) hle]
    have step : serializer_run (chunk :: rest) (.bounded ⟨k⟩) w =
        serializer_run rest (.bounded ⟨k - chunk.length⟩) (w ++ chunk) := by
      simp only [serializer_run, hadd]
    rw [step, ih (k - chunk.length) (w ++ chunk) (by omega)]
    rw [total_bytes_cons]
    have h2 : k - chunk.length - total_bytes rest = k - (chunk.length + total_bytes rest) := by
      omega
    rw [h2]
    simp [List.flatten_cons, List.append_assoc]

theorem size_checker_serializer_verdict (value : List (List Nat)) (t : Nat) (l : Limit)
    (w : List Nat) :
    (size_checker_run value ⟨t, l⟩).1 = (serializer_run value l w).1 := by
  induction value generalizing t l w with
  | nil => rfl
  | cons chunk rest ih =>
    simp only [size_checker_run, serializer_run, CountSize.add]
    rcases hadd : Limit.add l chunk.length with ⟨r, l'⟩
    cases r with
    | ok u => simpa using ih (t + chunk.length) l' (w ++ chunk)
    | error e => simp

theorem size_checker_total_of_ok (value : List (List Nat)) (t : Nat) (l : Limit)
    (h : (size_checker_run value ⟨t, l⟩).1 = .ok ()) :
    (size_checker_run value ⟨t, l⟩).2.total = t + total_bytes value := by
  induction value generalizing t l with
  | nil => simp [size_checker_run, total_bytes]
  | cons chunk rest ih =>
    rcases hadd : Limit.add l chunk.length with ⟨r, l'⟩
    cases r with
    | ok u =>
      have step : size_checker_run (chunk :: rest) ⟨t, l⟩ =
          size_checker_run rest ⟨t + chunk.length, l'⟩ := by
        simp [size_checker_run, CountSize.add, hadd]
      rw [step] at h ⊢
      rw [ih (t + chunk.length) l' h]
      simp [total_bytes]; omega
    | error e =>
      exfalso
      have step : size_checker_run (chunk :: rest) ⟨t, l⟩ =
          (.error e, ⟨t, l'⟩) := by
        simp [size_checker_run, CountSize.add, hadd]
      rw [step] at h
      simp at h

theorem serialized_size_infinite (value : List (List Nat)) :
    serialized_size value .infinite = (.ok (total_bytes value), .infinite) := by
  simp [serialized_size, size_checker_run_infinite value 0]

theorem serialized_size_bounded_of_le (value : List (List Nat)) (k : Nat)
    (h : total_bytes value ≤ k) :
    serialized_size value (.bounded ⟨k⟩) = (.ok (total_bytes value), .bounded ⟨k⟩) := by
  simp [serialized_size, size_checker_run_bounded_ok value 0 k h]

theorem serialized_size_bounded_of_gt (value : List (List Nat)) (k : Nat)
    (h : k < total_bytes value) :
    serialized_size value (.bounded ⟨k⟩) = (.error .SizeLimit, .bounded ⟨k⟩) := by
  obtain ⟨c, hc⟩ := size_checker_run_bounded_err value 0 k h
  simp [serialized_size, hc]

theorem serialized_size_options_unchanged (value : List (List Nat)) (options : Limit) :
    (serialized_size value options).2 = options := by
  rcases h : size_checker_run value ⟨0, options⟩ with ⟨r, sc⟩
  cases r <;> simp [serialized_size, h]

theorem serialize_into_bounded_eq (value : List (List Nat)) (k : Nat) (writer : List Nat) :
    serialize_into writer value (.bounded ⟨k⟩) =
      (match (serialized_size value (.bounded ⟨k⟩)).1 with
       | .error e => (.error e, Limit.bounded ⟨k⟩, writer)
       | .ok _ => serializer_run value (.bounded ⟨k⟩) writer) := by
  unfold serialize_into
  rcases hs : serialized_size value (.bounded ⟨k⟩) with ⟨r, options'⟩
  have h2 : options' = .bounded ⟨k⟩ := by
    have := serialized_size_options_unchanged value (.bounded ⟨k⟩)
    rw [hs] at this
    exact this
  subst h2
  cases r <;> simp [Limit.limit, Bounded.limit]

theorem deserializer_run_bounded_err (demands : List Nat) (k : Nat) (input : List Nat)
    (hk : k < demands.sum) (hin : demands.sum ≤ input.length) :
    (deserializer_run demands (.bounded ⟨k⟩) input).1 = .error .SizeLimit := by
  induction demands generalizing k input with
  | nil => simp at hk
  | cons n rest ih =>
    rw [List.sum_cons] at hk hin
    by_cases hn : n ≤ k
    · have hadd : Limit.add (.bounded ⟨k⟩) n = (.ok (), .bounded ⟨k - n⟩) := by
        simp [Limit.add, Bounded_add_of_le (b := ⟨k⟩) hn]
      have hlen : n ≤ input.length := by omega
      have step : deserializer_run (n :: rest) (.bounded ⟨k⟩) input =
          deserializer_run rest (.bounded ⟨k - n⟩) (input.drop n) := by
        simp only [deserializer_run, hadd]
        rw [if_pos hlen]
      rw [step]
      exact ih (k - n) (input.drop n) (by omega) (by simp [List.length_drop]; omega)
    · have hadd : Limit.add (.bounded ⟨k⟩) n = (.error .SizeLimit, .bounded ⟨k⟩) := by
        simp [Limit.add, Bounded_add_of_gt (b := ⟨k⟩) (show k < n by omega)]
      simp only [deserializer_run, hadd]

theorem add_all_of_sum_le (ns : List Nat) (k : Nat) (h : ns.sum ≤ k) :
    Bounded.add_all ⟨k⟩ ns = (.ok (), ⟨k - ns.sum⟩) := by
  induction ns generalizing k with
  | nil => simp [Bounded.add_all]
  | cons n rest ih =>
    rw [List.sum_cons] at h
    have hn : n ≤ k := by omega
    have step : Bounded.add_all ⟨k⟩ (n :: rest) = Bounded.add_all ⟨k - n⟩ rest := by
      simp only [Bounded.add_all, Bounded_add_of_le (b := ⟨k⟩) hn]
    rw [step, ih (k - n) (by omega), List.sum_cons]
    have h2 : k - n - rest.sum = k - (n + rest.sum) := by omega
    rw [h2]

theorem add_all_cross (pre : List Nat) (n : Nat) (post : List Nat) (k : Nat)
    (hpre : pre.sum ≤ k) (hcross : k < pre.sum + n) :
    Bounded.add_all ⟨k⟩ (pre ++ n :: post) = (.error .SizeLimit, ⟨k - pre.sum⟩) := by
  induction pre generalizing k with
  | nil =>
    rw [List.nil_append]
    have hgt : k < n := by simpa using hcross
    have step : Bounded.add ⟨k⟩ n = (.error .SizeLimit, ⟨k⟩) :=
      Bounded_add_of_gt (b := ⟨k⟩) hgt
    simp only [Bounded.add_all, step, List.sum_nil, Nat.sub_zero]
  | cons p pre' ih =>
    rw [List.sum_cons] at hpre hcross
    have hp : p ≤ k := by omega
    rw [List.cons_append]
    have step : Bounded.add_all ⟨k⟩ (p :: (pre' ++ n :: post)) =
        Bounded.add_all ⟨k - p⟩ (pre' ++ n :: post) := by
      simp only [Bounded.add_all, Bounded_add_of_le (b := ⟨k⟩) hp]
    rw [step, ih (k - p) (by omega) (by omega), List.sum_cons]
    have h2 : k - p - pre'.sum = k - (p + pre'.sum) := by omega
    rw [h2]

/-- C1: for a serialize with a Bounded byte budget, if serializing the value
would exceed the budget, the operation fails with SizeLimit during the
counting precomputation (serialized_size) and zero bytes are written to the
sink (serialize_into leaves the writer untouched) or buffer (serialize
produces no output). -/
theorem C1_bounded_precheck_blocks_output (k : Nat) (value : List (List Nat))
    (writer : List Nat) (h : k < total_bytes value) :
    (serialized_size value (.bounded ⟨k⟩)).1 = .error .SizeLimit ∧
    serialize_into writer value (.bounded ⟨k⟩) = (.error .SizeLimit, .bounded ⟨k⟩, writer) ∧
    serialize value (.bounded ⟨k⟩) = .error .SizeLimit := by
  have hs := serialized_size_bounded_of_gt value k h
  refine ⟨by rw [hs], ?_, ?_⟩
  · rw [serialize_into_bounded_eq value k writer, hs]
  · simp [serialize, hs]

/-- Witness for C1 at budget 1, a single 3-byte chunk, and a nonempty writer. -/
theorem C1_witness :
    1 < total_bytes [[0, 0, 0]] ∧
    ((serialized_size [[0, 0, 0]] (.bounded ⟨1⟩)).1 = .error .SizeLimit ∧
     serialize_into [9] [[0, 0, 0]] (.bounded ⟨1⟩) = (.error .SizeLimit, .bounded ⟨1⟩, [9]) ∧
     serialize [[0, 0, 0]] (.bounded ⟨1⟩) = .error .SizeLimit) :=
  ⟨by decide, C1_bounded_precheck_blocks_output 1 [[0, 0, 0]] [9] (by decide)⟩

/-- Counterexample to C2 as stated: Bounded(5) rejects add(10) with SizeLimit,
but the instance is not exhausted — the very next add(3) on the same instance
succeeds, because the failure branch of Bounded::add leaves the remaining
budget unchanged (src/internal.rs:175-177). -/
theorem C2_counterexample :
    (Bounded.add ⟨5⟩ 10).1 = .error .SizeLimit ∧
    (Bounded.add (Bounded.add ⟨5⟩ 10).2 3).1 = .ok () := by
  decide

/-- C2 (amended): after a Bounded instance fails an add call, the remaining
budget is left unchanged (the whole chunk is rejected atomically, no partial
decrement), so the instance is not exhausted: a later add call requesting no
more than the remaining budget still succeeds. -/
theorem C2_failed_add_leaves_budget (b : Bounded) (n m : Nat)
    (hn : b.remaining < n) (hm : m ≤ b.remaining) :
    Bounded.add b n = (.error .SizeLimit, b) ∧
    (Bounded.add (Bounded.add b n).2 m).1 = .ok () := by
  have h1 := Bounded_add_of_gt hn
  refine ⟨h1, ?_⟩
  rw [h1, Bounded_add_of_le hm]

/-- Witness for the amended C2 at Bounded(5), a failing add(10), then a
succeeding add(3). -/
theorem C2_witness :
    ((5 : Nat) < 10 ∧ (3 : Nat) ≤ 5) ∧
    (Bounded.add ⟨5⟩ 10 = (.error .SizeLimit, ⟨5⟩) ∧
     (Bounded.add (Bounded.add ⟨5⟩ 10).2 3).1 = .ok ()) :=
  ⟨⟨by decide, by decide⟩, C2_failed_add_leaves_budget ⟨5⟩ 10 3 (by decide) (by decide)⟩

/-- Counterexample to C3 as stated: deserialize-from-bytes (slice input) is
not metered against the configured budget.  With Bounded(1), a value shape
demanding a single 3-byte chunk from a 3-byte slice succeeds, although
consuming 3 bytes exceeds the 1 remaining byte: deserialize_seed replaces the
configured limit with Infinite (src/internal.rs:147). -/
theorem C3_counterexample :
    1 < ([3] : List Nat).sum ∧
    deserialize_seed [3] [0, 0, 0] (.bounded ⟨1⟩) = (.ok (), .infinite, []) := by
  decide

/-- C3 (amended): reader-based deserialization meters every byte consumed
against the configured budget and fails with SizeLimit once consuming would
exceed the k remaining bytes, but slice-based deserialization
(deserialize/deserialize_seed) replaces the configured limit with Infinite and
performs no budget metering at all. -/
theorem C3_reader_metered_slice_unmetered (demands : List Nat) (k : Nat)
    (input : List Nat) (hk : k < demands.sum) (hin : demands.sum ≤ input.length) :
    (deserialize_from_seed demands input (.bounded ⟨k⟩)).1 = .error .SizeLimit ∧
    deserialize_seed demands input (.bounded ⟨k⟩) = deserializer_run demands .infinite input := by
  exact ⟨deserializer_run_bounded_err demands k input hk hin, rfl⟩

/-- Witness for the amended C3: one 3-byte demand, budget 1, 3-byte input. -/
theorem C3_witness :
    1 < ([3] : List Nat).sum ∧
    (deserialize_from_seed [3] [0, 0, 0] (.bounded ⟨1⟩)).1 = .error .SizeLimit :=
  ⟨by decide,
   (C3_reader_metered_slice_unmetered [3] 1 [0, 0, 0] (by decide) (by decide)).1⟩

/-- Counterexample to C4 as stated: in serialize-to-bytes the real encode
traversal is not metered by the requested budget.  serialize hands the second
pass with_no_limit of its options (src/internal.rs:46), which is Infinite:
running the real pass the way serialize does leaves an Infinite limiter that
metered nothing, whereas a pass metered by the same budget Bounded(5) would
have decremented it to Bounded(2) after three bytes. -/
theorem C4_counterexample :
    Limit.with_no_limit (.bounded ⟨5⟩) = .infinite ∧
    (serializer_run [[0, 0, 0]] (Limit.with_no_limit (.bounded ⟨5⟩)) []).2.1 = .infinite ∧
    (serializer_run [[0, 0, 0]] (.bounded ⟨5⟩) []).2.1 = .bounded ⟨2⟩ ∧
    Limit.infinite ≠ Limit.bounded ⟨2⟩ := by
  decide

/-- C4 (amended): when a byte budget is requested, the counting pass runs
first and the real traversal runs only if it succeeds.  For
serialize-into-a-writer the real pass is metered by the same budget; for
serialize-to-bytes the real pass runs with the limit removed (with_no_limit),
the budget having already been fully enforced by the counting pass, so the
observable result is the same as if the real pass were metered by the same
budget (serialize_spec_metered). -/
theorem C4_count_then_write (value : List (List Nat)) (k : Nat) (writer : List Nat)
    (options : Limit) :
    serialize_into writer value (.bounded ⟨k⟩) =
      (match (serialized_size value (.bounded ⟨k⟩)).1 with
       | .error e => (.error e, Limit.bounded ⟨k⟩, writer)
       | .ok _ => serializer_run value (.bounded ⟨k⟩) writer) ∧
    serialize value options = serialize_spec_metered value options := by
  refine ⟨serialize_into_bounded_eq value k writer, ?_⟩
  cases options with
  | infinite =>
    simp [serialize, serialize_spec_metered, serialized_size_infinite,
      Limit.with_no_limit, with_other_limit, serialize_into, Limit.limit,
      serializer_run_infinite]
  | bounded b =>
    rcases b with ⟨k'⟩
    by_cases hk : total_bytes value ≤ k'
    · simp [serialize, serialize_spec_metered, serialized_size_bounded_of_le value k' hk,
        Limit.with_no_limit, with_other_limit, serialize_into, Limit.limit, Bounded.limit,
        serializer_run_infinite, serialized_size_bounded_of_le,
        serializer_run_bounded_ok value k' _ hk]
    · simp [serialize, serialize_spec_metered,
        serialized_size_bounded_of_gt value k' (by omega)]

/-- C5: a sequence of Bounded(k) add calls whose total is at most k all
succeed and leave remaining equal to k minus the total; a sequence whose
running total would cross k fails with SizeLimit exactly at the first crossing
call, with the budget at that point still k minus the sum of the previously
accepted calls. -/
theorem C5_bounded_add_sequence (k : Nat) (ns : List Nat) :
    (ns.sum ≤ k → Bounded.add_all ⟨k⟩ ns = (.ok (), ⟨k - ns.sum⟩)) ∧
    (∀ pre n post, ns = pre ++ n :: post → pre.sum ≤ k → k < pre.sum + n →
      Bounded.add_all ⟨k⟩ ns = (.error .SizeLimit, ⟨k - pre.sum⟩)) := by
  constructor
  · exact fun h => add_all_of_sum_le ns k h
  · intro pre n post hsplit hpre hcross
    rw [hsplit]
    exact add_all_cross pre n post k hpre hcross

/-- Witness for C5: under budget 5 the calls 2, 2 succeed leaving 1; the
sequence 2, 2, 3 fails at the third call (the first to cross 5), leaving the
budget at 1. -/
theorem C5_witness :
    Bounded.add_all ⟨5⟩ [2, 2] = (.ok (), ⟨1⟩) ∧
    Bounded.add_all ⟨5⟩ [2, 2, 3] = (.error .SizeLimit, ⟨1⟩) :=
  ⟨(C5_bounded_add_sequence 5 [2, 2]).1 (by decide),
   (C5_bounded_add_sequence 5 [2, 2, 3]).2 [2, 2] 3 [] rfl (by decide) (by decide)⟩

/-- C6: the counting instance forwards every add to the wrapped real limit
(so an outer bound is still enforced), accumulates the chunk into the running
total exactly when the forwarded add succeeds, and serialized_size reports the
accumulated total on success and otherwise the very error the real metered
pass would raise. -/
theorem C6_count_size_forwards_and_totals (c : CountSize) (n : Nat)
    (value : List (List Nat)) (options : Limit) :
    (CountSize.add c n).1 = (Limit.add c.other_limit n).1 ∧
    (CountSize.add c n).2.other_limit = (Limit.add c.other_limit n).2 ∧
    (CountSize.add c n).2.total =
      (if (Limit.add c.other_limit n).1 = .ok () then c.total + n else c.total) ∧
    (serialized_size value options).1 =
      ((serializer_run value options []).1).map (fun _ => total_bytes value) := by
  refine ⟨?_, ?_, ?_, ?_⟩
  · rcases h : Limit.add c.other_limit n with ⟨r, l⟩
    cases r <;> simp [CountSize.add, h]
  · rcases h : Limit.add c.other_limit n with ⟨r, l⟩
    cases r <;> simp [CountSize.add, h]
  · rcases h : Limit.add c.other_limit n with ⟨r, l⟩
    cases r with
    | ok u => cases u; simp [CountSize.add, h]
    | error e => simp [CountSize.add, h]
  · have hv := size_checker_serializer_verdict value 0 options []
    rcases h : size_checker_run value ⟨0, options⟩ with ⟨r, sc⟩
    rw [h] at hv
    cases r with
    | ok u =>
      cases u
      have ht := size_checker_total_of_ok value 0 options (by rw [h])
      rw [h] at ht
      simp at ht hv
      simp [serialized_size, h, Except.map, ht, ← hv]
    | error e =>
      simp at hv
      simp [serialized_size, h, Except.map, ← hv]

/-- C7: for every Size-Type width in 8, 16, 32, 64 bits and every length
representable in that width, writing the length and reading it back yields the
same length, the decoded primitive being widened losslessly. -/
theorem C7_size_type_round_trip (w : SizeType) (n : Nat) (h : n < 2 ^ w.bits) :
    SizeType.write w n = .ok n ∧
    SizeType.read w (SizeType.write w n) = .ok n := by
  have hw : SizeType.write w n = .ok n := by simp [SizeType.write, h]
  exact ⟨hw, by rw [hw]; rfl⟩

/-- Witness for C7 at the 16-bit width and the largest representable length. -/
theorem C7_witness :
    65535 < 2 ^ SizeType.bits .U16 ∧
    (SizeType.write .U16 65535 = .ok 65535 ∧
     SizeType.read .U16 (SizeType.write .U16 65535) = .ok 65535) :=
  ⟨by decide, C7_size_type_round_trip .U16 65535 (by decide)⟩

/-- C8: for every Size-Type width and every usize length not representable in
that width, writing the length fails with SizeTypeLimit instead of silently
truncating.  The first hypothesis confines n to the usize range the source
conversion starts from. -/
theorem C8_size_type_overflow_fails (w : SizeType) (n : Nat)
    (husize : n < 2 ^ 64) (h : 2 ^ w.bits ≤ n) :
    SizeType.write w n = .error .SizeTypeLimit := by
  have h' : ¬ n < 2 ^ w.bits := by omega
  simp [SizeType.write, h']

/-- Witness for C8: a 70000-element length cannot be encoded with the 16-bit
width. -/
theorem C8_witness :
    (70000 < 2 ^ 64 ∧ 2 ^ SizeType.bits .U16 ≤ 70000) ∧
    SizeType.write .U16 70000 = .error .SizeTypeLimit :=
  ⟨⟨by norm_num, by decide⟩, C8_size_type_overflow_fails .U16 70000 (by norm_num) (by decide)⟩

/-- C9: the configuration resolver deterministically expands the four
Configuration fields (in the fixed nesting limit, endian, string width, array
width of config_map, starting from DefaultOptions) and hands every
continuation exactly one fully resolved specialization, the one resolve
computes from the Configuration. -/
theorem C9_resolver_factors {α : Type} (c : Config) (call : Options → α) :
    config_map c call = call (resolve c) := by
  rcases c with ⟨l, e, s, a⟩
  cases l <;> cases e <;> cases s <;> cases a <;> rfl

/-- C10: serialized_size meters against a clone of the configured limiter and
shadows the caller's limit, so the caller's options come back with their
budget unchanged; in particular a bounded serialize_into whose precomputation
succeeds runs the real pass against the full original budget. -/
theorem C10_serialized_size_frame (value : List (List Nat)) (options : Limit)
    (k : Nat) (writer : List Nat) :
    (serialized_size value options).2 = options ∧
    serialize_into writer value (.bounded ⟨k⟩) =
      (match (serialized_size value (.bounded ⟨k⟩)).1 with
       | .error e => (.error e, Limit.bounded ⟨k⟩, writer)
       | .ok _ => serializer_run value (.bounded ⟨k⟩) writer) :=
  ⟨serialized_size_options_unchanged value options,
   serialize_into_bounded_eq value k writer⟩

end Bincode2
